import Mathlib

set_option maxRecDepth 8000

/-!
Verification of `dependency2tree.py`: a converter from CoNLL dependency
records to LaTeX (tikz-qtree) and Graphviz tree notations.

The Python source is embedded shallowly: sentences are lists of tokens,
the recursive renderers take a fuel parameter bounding recursion depth
(they return `none` when the depth exceeds the fuel, modelling Python
stack recursion that would not come back), and fatal errors are `Except`.
-/

/-- A CoNLL token (class `Token`, dependency2tree.py). The `lemma` attribute
is called `lemma_` because `lemma` is a reserved word in Lean. -/
structure Token where
  index : Int
  form : String
  lemma_ : String
  pos : String
  feats : String
  head : Int
  deplabel : String
  deriving DecidableEq

/-- Python `feats.replace("|", ", ")`: with a one-character pattern this is
the character-wise substitution sending `|` to the two characters `, `. -/
def pyReplacePipe (s : String) : String :=
  String.mk (s.data.flatMap (fun c => if c = '|' then [',', ' '] else [c]))

/-- Python `s.replace('"', "&quot;")` (graphviz label escaping): character-wise
substitution of a double quote by the six characters of `&quot;`. -/
def pyReplaceQuot (s : String) : String :=
  String.mk (s.data.flatMap (fun c => if c = '"' then "&quot;".data else [c]))

/-- Python `res.replace("_", "-")` (latex escaping): with a one-character
pattern and replacement this is the character-wise map `_` to `-`. -/
def pyReplaceUnderscore (s : String) : String :=
  String.mk (s.data.map (fun c => if c = '_' then '-' else c))

/-- Python `Token.__init__`: stores the fields as given, except that `feats` has
its `|` separators replaced by `, ` at construction time. -/
def Token.init (index : Int) (form lemma_ pos feats : String) (head : Int)
    (deplabel : String) : Token :=
  Token.mk index form lemma_ pos (pyReplacePipe feats) head deplabel

/-- Python `Sentence.get_children_of`: all tokens whose head equals `index`, in
appearance order (Python list comprehension over `self.tokens`). -/
def get_children_of (s : List Token) (index : Int) : List Token :=
  s.filter (fun t => t.head == index)

/-- Python `Sentence.has_children`: true iff some token has head `index`. -/
def has_children (s : List Token) (index : Int) : Bool :=
  s.any (fun t => t.head == index)

/-- The fixed text opening a per-sentence latex block
(`Sentence.convert_to_latex`). -/
def latexPre : String :=
  "\\begin\x7bcenter\x7d\\begin\x7btikzpicture\x7d\\tikzset\x7blevel distance=60pt\x7d\\tikzset\x7bevery tree node/.style=\x7balign=center,anchor=north\x7d\x7d\\Tree "

/-- The fixed text closing a per-sentence latex block. -/
def latexPost : String :=
  "\\end\x7btikzpicture\x7d\\end\x7bcenter\x7d\n\\clearpage"

/-- One step of `Sentence._token2latex` over a list of sibling tokens, with
the rendering of a child list abstracted as `child`: each token contributes
`[.{deplabel\\form (pos)feats} `, then its children, then ` ]`. -/
def latexSibs (s : List Token) (incl : Bool) (child : List Token → Option String) :
    List Token → Option String
  | [] => some ""
  | t :: rest =>
    match child (get_children_of s t.index) with
    | none => none
    | some body =>
      match latexSibs s incl child rest with
      | none => none
      | some tail =>
        some ("[.\x7b" ++ t.deplabel ++ "\\\\" ++ t.form ++ " (" ++ t.pos ++ ")"
          ++ (if incl ∧ t.feats ≠ "" then "\\\\ \x7b\\tiny " ++ t.feats ++ "\x7d" else "")
          ++ "\x7d " ++ body ++ " ]" ++ tail)

/-- Python `Sentence._token2latex`, lifted to a list of sibling tokens.  The fuel
bounds the depth of the recursion on children; `none` models a Python run
whose recursion never comes back. -/
def latexRenderTokens (s : List Token) (incl : Bool) : Nat → List Token → Option String
  | 0, ts => match ts with | [] => some "" | _ :: _ => none
  | fuel+1, ts => latexSibs s incl (latexRenderTokens s incl fuel) ts

/-- Python `Sentence.convert_to_latex`: preamble, an extra bracket level when there
is more than one root, the rendered roots, postamble, then the global
underscore-to-hyphen substitution. -/
def convert_to_latex (s : List Token) (incl : Bool) (fuel : Nat) : Option String :=
  let children := get_children_of s 0
  match latexRenderTokens s incl fuel children with
  | none => none
  | some body =>
    some (pyReplaceUnderscore
      (latexPre ++ (if children.length > 1 then "[ " else "")
        ++ body ++ (if children.length > 1 then "] " else "") ++ latexPost))

/-- One step of `Sentence._token2graphviz` over a list of sibling tokens,
with the rendering of a child list abstracted as `child`: each token
contributes its node line, an edge line when it has children, then its
children. -/
def graphvizSibs (s : List Token) (incl : Bool) (child : List Token → Option String) :
    List Token → Option String
  | [] => some ""
  | t :: rest =>
    match child (get_children_of s t.index) with
    | none => none
    | some body =>
      match graphvizSibs s incl child rest with
      | none => none
      | some tail =>
        some ("n" ++ toString t.index ++ " [label=\"" ++ pyReplaceQuot t.form
            ++ "\\n" ++ pyReplaceQuot t.pos ++ " (" ++ pyReplaceQuot t.deplabel ++ ")"
            ++ pyReplaceQuot (if incl ∧ t.feats ≠ "" then "\\n" ++ t.feats else "")
            ++ "\"];\n"
          ++ (if has_children s t.index then
              "n" ++ toString t.index ++ " -> \x7b"
                ++ String.intercalate " "
                  ((get_children_of s t.index).map (fun c => "n" ++ toString c.index))
                ++ "\x7d;\n"
            else "")
          ++ body ++ tail)

/-- Python `Sentence._token2graphviz`, lifted to a list of sibling tokens.  Fuel as
in `latexRenderTokens`. -/
def graphvizRenderTokens (s : List Token) (incl : Bool) : Nat → List Token → Option String
  | 0, ts => match ts with | [] => some "" | _ :: _ => none
  | fuel+1, ts => graphvizSibs s incl (graphvizRenderTokens s incl fuel) ts

/-- Python `Sentence.convert_to_graphviz`: digraph header, the rendered roots, and
the closing brace. -/
def convert_to_graphviz (s : List Token) (incl : Bool) (fuel : Nat) : Option String :=
  match graphvizRenderTokens s incl fuel (get_children_of s 0) with
  | none => none
  | some body => some ("digraph tree \x7b\n" ++ body ++ "\x7d")

deriving instance DecidableEq for Except

/-- Splitting a character list at every occurrence of `sep`, keeping empty
groups, as Python `str.split` with an explicit separator does. -/
def splitCharList (sep : Char) : List Char → List (List Char)
  | [] => [[]]
  | c :: cs =>
    match splitCharList sep cs with
    | [] => if c = sep then [[], []] else [[c]]
    | g :: gs => if c = sep then [] :: g :: gs else (c :: g) :: gs

/-- Python `line.split("\t")`. -/
def splitTab (line : String) : List String :=
  (splitCharList '\t' line.data).map String.mk

/-- Python's whitespace set for `str.strip()`. -/
def pyIsSpace (c : Char) : Bool :=
  c = ' ' ∨ c = '\t' ∨ c = '\n' ∨ c = '\r' ∨ c = '\x0b' ∨ c = '\x0c'

/-- Python `line.strip()`: whitespace removed from both ends. -/
def pyStrip (line : String) : String :=
  String.mk (((line.data.dropWhile pyIsSpace).reverse.dropWhile pyIsSpace).reverse)

/-- Python `split[i]`: a fatal `IndexError` when the column is missing. -/
def col (split : List String) (i : Nat) : Except String String :=
  match split.get? i with
  | some v => Except.ok v
  | none => Except.error "IndexError: list index out of range"

/-- The value of a decimal digit. -/
def digitVal (c : Char) : Option Nat :=
  if '0' ≤ c ∧ c ≤ '9' then some (c.toNat - '0'.toNat) else none

/-- Decimal value of a digit string, left to right. -/
def digitsToNatAux : List Char → Nat → Option Nat
  | [], acc => some acc
  | c :: cs, acc =>
    match digitVal c with
    | none => none
    | some d => digitsToNatAux cs (acc * 10 + d)

/-- Decimal value of a non-empty digit string. -/
def digitsToNat : List Char → Option Nat
  | [] => none
  | l => digitsToNatAux l 0

/-- Python `int(s)`: surrounding whitespace and an optional sign followed by
decimal digits; anything else is a fatal `ValueError`. -/
def pyInt (s : String) : Except String Int :=
  let parsed : Option Int :=
    match (pyStrip s).data with
    | '-' :: rest => (digitsToNat rest).map (fun n => -(n : Int))
    | '+' :: rest => (digitsToNat rest).map (fun n => (n : Int))
    | l => (digitsToNat l).map (fun n => (n : Int))
  match parsed with
  | some n => Except.ok n
  | none => Except.error ("ValueError: invalid literal for int: " ++ s)

/-- The body of the `ConllFile.read` loop for one non-blank (stripped) line:
`ok none` when the record is skipped by `ignore_double_indices`, `ok (some t)`
when it parses, `error` for a fatal format error.  The columns are
`ID FORM LEMMA CPOSTAG POSTAG FEATS HEAD DEPREL PHEAD PDEPREL`; the script
builds the token from `split[0]`, `split[1]`, `split[2]`, `split[3]`,
`split[5]`, `split[6]` and `split[7]`.  (`split` of a non-blank line is
never empty, so `split.headD ""` is Python's `split[0]`.) -/
def lineToken (ignoreDouble : Bool) (line : String) : Except String (Option Token) :=
  let split := splitTab line
  if ignoreDouble ∧ '-' ∈ (split.headD "").data then Except.ok none
  else do
    let c0 ← col split 0
    let index ← pyInt c0
    let form ← col split 1
    let lem ← col split 2
    let pos ← col split 3
    let feats ← col split 5
    let c6 ← col split 6
    let head ← pyInt c6
    let dep ← col split 7
    Except.ok (some (Token.init index form lem pos feats head dep))

/-- The line loop of `ConllFile.read`: strips each line, closes the current
sentence at a blank line, parses records, and flushes the last sentence at
end of input.  `acc` holds the tokens of the sentence being read. -/
def readLines (ignoreDouble : Bool) : List String → List Token → Except String (List (List Token))
  | [], acc => Except.ok (if acc.isEmpty then [] else [acc])
  | line :: rest, acc =>
    if pyStrip line = "" then
      if acc.isEmpty then readLines ignoreDouble rest []
      else
        match readLines ignoreDouble rest [] with
        | Except.error e => Except.error e
        | Except.ok sents => Except.ok (acc :: sents)
    else
      match lineToken ignoreDouble (pyStrip line) with
      | Except.error e => Except.error e
      | Except.ok none => readLines ignoreDouble rest acc
      | Except.ok (some t) => readLines ignoreDouble rest (acc ++ [t])

/-- Python `"%03d" % n` for a non-negative number: decimal digits padded
with zeros on the left to width 3 (wider numbers keep all their digits). -/
def pyFormat03 (n : Nat) : String :=
  String.mk (List.replicate (3 - (toString n).length) '0') ++ toString n

/-- Position of the last occurrence of `c` in `l`, counting from `i`. -/
def lastIdxAux (c : Char) : List Char → Nat → Option Nat
  | [], _ => none
  | x :: xs, i =>
    match lastIdxAux c xs (i + 1) with
    | some j => some j
    | none => if x = c then some i else none

/-- Position of the last occurrence of `c` in `l`, if any. -/
def lastIdx (l : List Char) (c : Char) : Option Nat :=
  lastIdxAux c l 0

/-- Modelled from Python's standard library `os.path.splitext` (an external
collaborator of the script): the extension starts at the last dot, provided
that dot lies after the last path separator and at least one earlier
character of the base name is not a dot. -/
def os_path_splitext (p : String) : String × String :=
  let l := p.data
  match lastIdx l '.' with
  | none => (p, "")
  | some dot =>
    let start := match lastIdx l '/' with
      | none => 0
      | some sep => sep + 1
    if start ≤ dot ∧ ((l.drop start).take (dot - start)).any (fun c => c ≠ '.') then
      (String.mk (l.take dot), String.mk (l.drop dot))
    else (p, "")

/-- One output unit: a file to be written (name and contents) or text
printed to the console. -/
inductive OutUnit where
  | toFile : String → String → OutUnit
  | toConsole : String → OutUnit
  deriving DecidableEq

/-- The sentence loop of `ConllFile.write_graphviz`: one output unit per
sentence; with an output file configured, the running `count` (starting at
1) is zero-padded to three digits and inserted before the extension. -/
def gvUnits (incl : Bool) (fuel : Nat) (output_file : String) :
    List (List Token) → Nat → Option (List OutUnit)
  | [], _ => some []
  | s :: rest, count =>
    match convert_to_graphviz s incl fuel with
    | none => none
    | some code =>
      if output_file = "" then
        match gvUnits incl fuel output_file rest count with
        | none => none
        | some us => some (OutUnit.toConsole code :: us)
      else
        match gvUnits incl fuel output_file rest (count + 1) with
        | none => none
        | some us =>
          some (OutUnit.toFile
            ((os_path_splitext output_file).1 ++ "-" ++ pyFormat03 count
              ++ (os_path_splitext output_file).2) code :: us)

/-- The fixed document preamble of `ConllFile.write_latex`. -/
def latexDocPre : String :=
  "\\documentclass[10pt,landscape]\x7barticle\x7d\n"
    ++ "\\usepackage[a2paper,margin=1cm]\x7bgeometry\x7d\n"
    ++ "\\usepackage\x7bfontspec\x7d\n"
    ++ "\\defaultfontfeatures\x7bLigatures=TeX\x7d\n"
    ++ "\\setmainfont[BoldFont=\x7bGentium Basic-bold\x7d, BoldItalicFont=\x7bGentium Basic-bold-italic\x7d, SmallCapsFont=\x7bLinux Libertine Capitals O\x7d]\x7bGentium\x7d\n"
    ++ "\\usepackage\x7btikz\x7d\n"
    ++ "\\usepackage\x7btikz-qtree\x7d\n"
    ++ "\\pagestyle\x7bempty\x7d\n"
    ++ "\\begin\x7bdocument\x7d\n\n"

/-- The sentence loop of `ConllFile.write_latex`: each sentence block is
followed by a blank line. -/
def latexSentences (incl : Bool) (fuel : Nat) : List (List Token) → Option String
  | [] => some ""
  | s :: rest =>
    match convert_to_latex s incl fuel with
    | none => none
    | some code =>
      match latexSentences incl fuel rest with
      | none => none
      | some tail => some (code ++ "\n\n" ++ tail)

/-- The whole latex document assembled by `ConllFile.write_latex`. -/
def latexDocument (sents : List (List Token)) (incl : Bool) (fuel : Nat) : Option String :=
  match latexSentences incl fuel sents with
  | none => none
  | some body => some (latexDocPre ++ body ++ "\\end\x7bdocument\x7d\n")

/-- Constant `MODE_LATEX` from the script. -/
def MODE_LATEX : Nat := 1

/-- Constant `MODE_GRAPHVIZ` from the script. -/
def MODE_GRAPHVIZ : Nat := 2

/-- The raw command-line options, as delivered by argparse (an external
collaborator): the fields and defaults of the script's option definitions. -/
structure Args where
  input_file : String
  output_file : String
  mode : String
  latex_mode : Bool
  include_feats : Bool
  compile : Bool
  ignore_double_indices : Bool
  command : String
  img_format : String
  deriving DecidableEq

/-- The options after the post-processing at the end of `parse_args`, with
the mode resolved to `MODE_LATEX` or `MODE_GRAPHVIZ`. -/
structure ProcArgs where
  input_file : String
  output_file : String
  mode : Nat
  include_feats : Bool
  compile : Bool
  ignore_double_indices : Bool
  command : String
  img_format : String
  deriving DecidableEq

/-- The post-processing and validation at the end of `parse_args`: `-l`
overrides the mode, a default compile command is chosen, and compiling
without an output file is a fatal configuration error (`RuntimeError`). -/
def parse_args (a : Args) : Except String ProcArgs :=
  let modeStr := if a.latex_mode then "latex" else a.mode
  let mode := if modeStr = "latex" then MODE_LATEX else MODE_GRAPHVIZ
  let command :=
    if a.compile ∧ a.command = "" then
      (if mode = MODE_LATEX then "lualatex" else "dot")
    else a.command
  if a.compile ∧ a.output_file = "" then
    Except.error "you need to specify an output file when using the -c switch"
  else
    Except.ok (ProcArgs.mk a.input_file a.output_file mode a.include_feats a.compile
      a.ignore_double_indices command a.img_format)

/-- Python `main`: validates the options, then reads the input lines and produces
the output units of the selected mode.  Fuel exhaustion of the recursive
renderers is reported as an error of its own. -/
def mainFlow (a : Args) (input : List String) (fuel : Nat) : Except String (List OutUnit) :=
  match parse_args a with
  | Except.error e => Except.error e
  | Except.ok p =>
    match readLines p.ignore_double_indices input [] with
    | Except.error e => Except.error e
    | Except.ok sents =>
      if p.mode = MODE_LATEX then
        match latexDocument sents p.include_feats fuel with
        | none => Except.error "RecursionError"
        | some code =>
          Except.ok [if p.output_file = "" then OutUnit.toConsole code
            else OutUnit.toFile p.output_file code]
      else
        match gvUnits p.include_feats fuel p.output_file sents 1 with
        | none => Except.error "RecursionError"
        | some us => Except.ok us

/-- Success of the shared recursive traversal over a list of siblings, with
success on a child list abstracted as `child`. -/
def traverseSibs (s : List Token) (child : List Token → Bool) : List Token → Bool
  | [] => true
  | t :: rest => child (get_children_of s t.index) && traverseSibs s child rest

/-- Success of the shared recursive traversal at a given fuel: both
renderers return `some` exactly when this holds. -/
def traverseOK (s : List Token) : Nat → List Token → Bool
  | 0, ts => ts.isEmpty
  | fuel+1, ts => traverseSibs s (traverseOK s fuel) ts

/-- Token indices are unique within the sentence. -/
def uniqIndices (s : List Token) : Prop :=
  ∀ t ∈ s, ∀ u ∈ s, t.index = u.index → t = u

/-- Token indices are positive (0 is reserved for the virtual root). -/
def posIndices (s : List Token) : Prop :=
  ∀ t ∈ s, 0 < t.index

/-- The head invariant: every head is 0 or the index of another token of
the same sentence. -/
def headInv (s : List Token) : Prop :=
  ∀ t ∈ s, t.head = 0 ∨ ∃ u ∈ s, u ≠ t ∧ u.index = t.head

/-- One step of the head-pointer relation: `t` points to `u` (the head of
`t` is the index of `u`). -/
def headStep (s : List Token) (t u : Token) : Prop :=
  t ∈ s ∧ u ∈ s ∧ t.head = u.index

/-- The head-pointer relation has no cycle. -/
def Acyclic (s : List Token) : Prop :=
  ∀ t, ¬ Relation.TransGen (headStep s) t t

instance decUniqIndices (s : List Token) : Decidable (uniqIndices s) :=
  decidable_of_iff (∀ t ∈ s, ∀ u ∈ s, t.index = u.index → t = u) Iff.rfl

instance decPosIndices (s : List Token) : Decidable (posIndices s) :=
  decidable_of_iff (∀ t ∈ s, 0 < t.index) Iff.rfl

instance decHeadInv (s : List Token) : Decidable (headInv s) :=
  decidable_of_iff (∀ t ∈ s, t.head = 0 ∨ ∃ u ∈ s, u ≠ t ∧ u.index = t.head) Iff.rfl

/-- An ancestor chain in sentence `s`, nearest ancestor first: each token's
head is the index of the next one, and the last token is a root. -/
inductive Anc (s : List Token) : List Token → Prop
  | nil : Anc s []
  | root (p : Token) : p ∈ s → p.head = 0 → Anc s [p]
  | cons (p q : Token) (rest : List Token) :
      p ∈ s → p.head = q.index → Anc s (q :: rest) → Anc s (p :: q :: rest)

/-- The index at whose children a chain's extension looks: the index of the
nearest ancestor, or 0 for the empty chain (the virtual root). -/
def chainHead : List Token → Int
  | [] => 0
  | p :: _ => p.index

/-! ### Helper lemmas -/

theorem mem_get_children_of {s : List Token} {i : Int} {t : Token} :
    t ∈ get_children_of s i ↔ t ∈ s ∧ t.head = i := by
  simp [get_children_of, List.mem_filter]

theorem has_children_iff {s : List Token} {i : Int} :
    has_children s i = true ↔ get_children_of s i ≠ [] := by
  constructor
  · intro h
    simp only [has_children, List.any_eq_true] at h
    obtain ⟨t, ht, hh⟩ := h
    intro hnil
    have : t ∈ get_children_of s i := mem_get_children_of.mpr ⟨ht, by simpa using hh⟩
    simp [hnil] at this
  · intro h
    obtain ⟨t, ht⟩ := List.exists_mem_of_ne_nil _ h
    have := mem_get_children_of.mp ht
    simp only [has_children, List.any_eq_true]
    exact ⟨t, this.1, by simp [this.2]⟩

theorem latexSibs_isSome (s : List Token) (incl : Bool)
    (child : List Token → Option String) (childOK : List Token → Bool)
    (h : ∀ l, (child l).isSome = childOK l) :
    ∀ ts, (latexSibs s incl child ts).isSome = traverseSibs s childOK ts := by
  intro ts
  induction ts with
  | nil => simp [latexSibs, traverseSibs]
  | cons t rest ih =>
    simp only [latexSibs, traverseSibs]
    cases hc : child (get_children_of s t.index) with
    | none =>
      have hok := h (get_children_of s t.index)
      rw [hc] at hok
      simp [← hok]
    | some body =>
      have hok := h (get_children_of s t.index)
      rw [hc] at hok
      cases hr : latexSibs s incl child rest with
      | none => rw [hr] at ih; simp [← hok, ← ih]
      | some tail => rw [hr] at ih; simp [← hok, ← ih]

theorem latexRenderTokens_isSome (s : List Token) (incl : Bool) :
    ∀ fuel ts, (latexRenderTokens s incl fuel ts).isSome = traverseOK s fuel ts := by
  intro fuel
  induction fuel with
  | zero => intro ts; cases ts <;> simp [latexRenderTokens, traverseOK]
  | succ fuel ih =>
    intro ts
    simp only [latexRenderTokens, traverseOK]
    exact latexSibs_isSome s incl _ _ ih ts

theorem graphvizSibs_isSome (s : List Token) (incl : Bool)
    (child : List Token → Option String) (childOK : List Token → Bool)
    (h : ∀ l, (child l).isSome = childOK l) :
    ∀ ts, (graphvizSibs s incl child ts).isSome = traverseSibs s childOK ts := by
  intro ts
  induction ts with
  | nil => simp [graphvizSibs, traverseSibs]
  | cons t rest ih =>
    simp only [graphvizSibs, traverseSibs]
    cases hc : child (get_children_of s t.index) with
    | none =>
      have hok := h (get_children_of s t.index)
      rw [hc] at hok
      simp [← hok]
    | some body =>
      have hok := h (get_children_of s t.index)
      rw [hc] at hok
      cases hr : graphvizSibs s incl child rest with
      | none => rw [hr] at ih; simp [← hok, ← ih]
      | some tail => rw [hr] at ih; simp [← hok, ← ih]

theorem graphvizRenderTokens_isSome (s : List Token) (incl : Bool) :
    ∀ fuel ts, (graphvizRenderTokens s incl fuel ts).isSome = traverseOK s fuel ts := by
  intro fuel
  induction fuel with
  | zero => intro ts; cases ts <;> simp [graphvizRenderTokens, traverseOK]
  | succ fuel ih =>
    intro ts
    simp only [graphvizRenderTokens, traverseOK]
    exact graphvizSibs_isSome s incl _ _ ih ts

theorem anc_mem {s A : List Token} (h : Anc s A) : ∀ a ∈ A, a ∈ s := by
  induction h with
  | nil => simp
  | root p hp _ => simp [hp]
  | cons p q rest hp _ _ ih =>
    intro a ha
    rcases List.mem_cons.mp ha with rfl | ha
    · exact hp
    · exact ih a ha

theorem anc_heads {s A : List Token} (h : Anc s A) (hne : A ≠ []) :
    A.map Token.head = (A.map Token.index).drop 1 ++ [0] := by
  induction h with
  | nil => exact absurd rfl hne
  | root p hp h0 => simp [h0]
  | cons p q rest hp hpq _ ih =>
    have ihv := ih (by simp)
    simp only [List.map_cons, List.drop_succ_cons, List.drop_zero] at ihv ⊢
    rw [ihv, hpq]
    simp

theorem chain_not_mem {s : List Token} (hu : uniqIndices s) (hp : posIndices s)
    {A : List Token} (h : Anc s A) (hnd : A.Nodup) {c : Token}
    (hc : c.head = chainHead A) : c ∉ A := by
  cases A with
  | nil => simp
  | cons p B =>
    intro hmem
    have hheads : c.head ∈ (p :: B).map Token.head := List.mem_map_of_mem Token.head hmem
    rw [anc_heads h (by simp)] at hheads
    simp only [List.map_cons, List.drop_succ_cons, List.drop_zero] at hheads
    rcases List.mem_append.mp hheads with hin | hzero
    · obtain ⟨b, hb, hbidx⟩ := List.mem_map.mp hin
      have hbp : b = p := hu b (anc_mem h b (List.mem_cons_of_mem p hb)) p
        (anc_mem h p (List.mem_cons_self p B)) (by rw [hbidx, hc]; rfl)
      rw [hbp] at hb
      exact (List.nodup_cons.mp hnd).1 hb
    · have : c.head = 0 := by simpa using hzero
      have hpos : 0 < p.index := hp p (anc_mem h p (List.mem_cons_self p B))
      rw [hc] at this
      simp only [chainHead] at this
      omega

theorem chain_length_le {s A : List Token} (h : Anc s A) (hnd : A.Nodup) :
    A.length ≤ s.length := by
  classical
  calc A.length = A.toFinset.card := (List.toFinset_card_of_nodup hnd).symm
    _ ≤ s.toFinset.card := Finset.card_le_card (fun x hx => by
        rw [List.mem_toFinset] at hx ⊢
        exact anc_mem h x hx)
    _ ≤ s.length := s.toFinset_card_le

theorem traverseOK_of_anc {s : List Token} (hu : uniqIndices s) (hp : posIndices s) :
    ∀ fuel A ts, Anc s A → A.Nodup → s.length < fuel + A.length →
      (∀ c ∈ ts, c ∈ s ∧ c.head = chainHead A) → traverseOK s fuel ts = true := by
  intro fuel
  induction fuel with
  | zero =>
    intro A ts hA hnd hlen hts
    match ts with
    | [] => simp [traverseOK]
    | t :: rest =>
      exfalso
      have := chain_length_le hA hnd
      omega
  | succ fuel ih =>
    intro A ts hA hnd hlen hts
    simp only [traverseOK]
    induction ts with
    | nil => simp [traverseSibs]
    | cons t rest ihrest =>
      simp only [traverseSibs, Bool.and_eq_true]
      refine ⟨?_, ihrest (fun c hc => hts c (List.mem_cons_of_mem t hc))⟩
      have htmem := (hts t (List.mem_cons_self t rest)).1
      have hthead := (hts t (List.mem_cons_self t rest)).2
      have hAnc : Anc s (t :: A) := by
        match A, hA with
        | [], _ => exact Anc.root t htmem (by simpa [chainHead] using hthead)
        | p :: B, hA => exact Anc.cons t p B htmem (by simpa [chainHead] using hthead) hA
      have hnd2 : (t :: A).Nodup :=
        List.nodup_cons.mpr ⟨chain_not_mem hu hp hA hnd hthead, hnd⟩
      refine ih (t :: A) (get_children_of s t.index) hAnc hnd2 (by simp; omega) ?_
      intro c hc
      have := mem_get_children_of.mp hc
      exact ⟨this.1, by simp [chainHead, this.2]⟩

/-- Two tokens that agree on every attribute except possibly the lemma. -/
def sameExceptLemma (t u : Token) : Prop :=
  t.index = u.index ∧ t.form = u.form ∧ t.pos = u.pos ∧ t.feats = u.feats ∧
    t.head = u.head ∧ t.deplabel = u.deplabel

theorem forall2_children {s s' : List Token}
    (h : List.Forall₂ sameExceptLemma s s') (i : Int) :
    List.Forall₂ sameExceptLemma (get_children_of s i) (get_children_of s' i) := by
  induction h with
  | nil => exact List.Forall₂.nil
  | cons hrel _ ih =>
    simp only [get_children_of, List.filter_cons] at ih ⊢
    rw [hrel.2.2.2.2.1]
    split
    · exact List.Forall₂.cons hrel ih
    · exact ih

theorem forall2_has_children {s s' : List Token}
    (h : List.Forall₂ sameExceptLemma s s') (i : Int) :
    has_children s i = has_children s' i := by
  induction h with
  | nil => rfl
  | cons hrel _ ih =>
    simp only [has_children, List.any_cons] at ih ⊢
    rw [hrel.2.2.2.2.1, ih]

theorem forall2_map_index {l l' : List Token}
    (h : List.Forall₂ sameExceptLemma l l') :
    l.map Token.index = l'.map Token.index := by
  induction h with
  | nil => rfl
  | cons hrel _ ih =>
    simp only [List.map_cons]
    rw [hrel.1, ih]

theorem map_nodeName_eq {l l' : List Token}
    (h : l.map Token.index = l'.map Token.index) :
    l.map (fun c => "n" ++ toString c.index) = l'.map (fun c => "n" ++ toString c.index) := by
  have key : ∀ m : List Token, m.map (fun c => "n" ++ toString c.index)
      = (m.map Token.index).map (fun i => "n" ++ toString i) := by
    intro m
    rw [List.map_map]
    rfl
  rw [key, key, h]

theorem latexSibs_congr {s s' : List Token} (incl : Bool)
    (hss : List.Forall₂ sameExceptLemma s s')
    {child child' : List Token → Option String}
    (hchild : ∀ {l l'}, List.Forall₂ sameExceptLemma l l' → child l = child' l') :
    ∀ {ts ts'}, List.Forall₂ sameExceptLemma ts ts' →
      latexSibs s incl child ts = latexSibs s' incl child' ts' := by
  intro ts ts' h
  induction h with
  | nil => rfl
  | cons hrel _ ih =>
    obtain ⟨hi, hf, hps, hfe, _, hd⟩ := hrel
    simp only [latexSibs]
    rw [hi, hchild (forall2_children hss _), ih, hf, hps, hfe, hd]

theorem latexRenderTokens_congr {s s' : List Token} (incl : Bool)
    (hss : List.Forall₂ sameExceptLemma s s') :
    ∀ fuel {ts ts'}, List.Forall₂ sameExceptLemma ts ts' →
      latexRenderTokens s incl fuel ts = latexRenderTokens s' incl fuel ts' := by
  intro fuel
  induction fuel with
  | zero =>
    intro ts ts' h
    cases h with
    | nil => rfl
    | cons => rfl
  | succ fuel ih =>
    intro ts ts' h
    simp only [latexRenderTokens]
    exact latexSibs_congr incl hss (fun hl => ih hl) h

theorem graphvizSibs_congr {s s' : List Token} (incl : Bool)
    (hss : List.Forall₂ sameExceptLemma s s')
    {child child' : List Token → Option String}
    (hchild : ∀ {l l'}, List.Forall₂ sameExceptLemma l l' → child l = child' l') :
    ∀ {ts ts'}, List.Forall₂ sameExceptLemma ts ts' →
      graphvizSibs s incl child ts = graphvizSibs s' incl child' ts' := by
  intro ts ts' h
  induction h with
  | nil => rfl
  | cons hrel _ ih =>
    obtain ⟨hi, hf, hps, hfe, _, hd⟩ := hrel
    simp only [graphvizSibs]
    rw [hi, hchild (forall2_children hss _), ih, hf, hps, hfe, hd,
      forall2_has_children hss _, map_nodeName_eq (forall2_map_index (forall2_children hss _))]

theorem graphvizRenderTokens_congr {s s' : List Token} (incl : Bool)
    (hss : List.Forall₂ sameExceptLemma s s') :
    ∀ fuel {ts ts'}, List.Forall₂ sameExceptLemma ts ts' →
      graphvizRenderTokens s incl fuel ts = graphvizRenderTokens s' incl fuel ts' := by
  intro fuel
  induction fuel with
  | zero =>
    intro ts ts' h
    cases h with
    | nil => rfl
    | cons => rfl
  | succ fuel ih =>
    intro ts ts' h
    simp only [graphvizRenderTokens]
    exact graphvizSibs_congr incl hss (fun hl => ih hl) h

/-! ### Named output fragments and concrete inputs used in the claims -/

/-- The node-declaration line `_token2graphviz` emits for one token. -/
def gvNodeLine (incl : Bool) (t : Token) : String :=
  "n" ++ toString t.index ++ " [label=\"" ++ pyReplaceQuot t.form ++ "\\n"
    ++ pyReplaceQuot t.pos ++ " (" ++ pyReplaceQuot t.deplabel ++ ")"
    ++ pyReplaceQuot (if incl ∧ t.feats ≠ "" then "\\n" ++ t.feats else "") ++ "\"];\n"

/-- The edge-declaration line `_token2graphviz` emits for a token with
children: the parent's node name, an arrow, and the grouped child names. -/
def gvEdgeLine (s : List Token) (t : Token) : String :=
  "n" ++ toString t.index ++ " -> \x7b"
    ++ String.intercalate " " ((get_children_of s t.index).map (fun c => "n" ++ toString c.index))
    ++ "\x7d;\n"

/-- The two-token sentence of the spec's round-trip example: `Le` depends
on `chat`, which is the root. -/
def demoSentence : List Token :=
  [Token.init 1 "Le" "le" "DET" "" 2 "det", Token.init 2 "chat" "chat" "NC" "" 0 "root"]

/-- A sentence with two roots. -/
def twoRootSentence : List Token :=
  [Token.init 1 "a" "a" "A" "" 0 "r", Token.init 2 "b" "b" "B" "" 0 "r"]

/-- First token of a two-token cyclic sentence: its head points at index 2. -/
def cycToken1 : Token := Token.mk 1 "a" "a" "A" "" 2 "x"

/-- Second token of the cyclic sentence: its head points back at index 1. -/
def cycToken2 : Token := Token.mk 2 "b" "b" "B" "" 1 "y"

/-- A two-token sentence whose head pointers form a cycle (no root). -/
def cycSentence : List Token := [cycToken1, cycToken2]

/-- A CoNLL record whose coarse-POS column is `N` and fine-POS column is
`NN`. -/
def c1Line : String := "1\tcat\tchat\tN\tNN\tf|g\t0\troot\t_\t_"

/-- A token with a two-feature feature string. -/
def featToken : Token := Token.init 1 "cat" "c" "N" "Gender=Masc|Number=Sing" 0 "r"

/-- A one-token sentence around `featToken`. -/
def featSentence : List Token := [featToken]

/-- Three one-token sentences, in input order `a`, `b`, `c`. -/
def c8Sentences : List (List Token) :=
  [[Token.init 1 "a" "a" "A" "" 0 "r"], [Token.init 1 "b" "b" "A" "" 0 "r"],
    [Token.init 1 "c" "c" "A" "" 0 "r"]]

/-- Options requesting compilation without an output file. -/
def c9Args : Args := Args.mk "in.conll" "" "graphviz" false false true false "" "svg"

/-! ### More helper lemmas -/

theorem except_bind_ok {α β : Type} {x : Except String α} {f : α → Except String β} {b : β}
    (h : (x >>= f) = Except.ok b) : ∃ a, x = Except.ok a ∧ f a = Except.ok b := by
  cases x with
  | error e => simp [Bind.bind, Except.bind] at h
  | ok a => exact ⟨a, rfl, by simpa [Bind.bind, Except.bind] using h⟩

theorem col_ok {l : List String} {i : Nat} {v : String} (h : col l i = Except.ok v) :
    l.get? i = some v := by
  simp only [col] at h
  cases hg : l.get? i with
  | none => rw [hg] at h; exact absurd h (by simp)
  | some w =>
    rw [hg] at h
    simp only [Except.ok.injEq] at h
    rw [h]

theorem data_pyReplaceUnderscore (x : String) :
    (pyReplaceUnderscore x).data = x.data.map (fun c => if c = '_' then '-' else c) := rfl

theorem pyReplaceUnderscore_no_underscore (x : String) :
    '_' ∉ (pyReplaceUnderscore x).data := by
  intro hmem
  rw [data_pyReplaceUnderscore] at hmem
  obtain ⟨c, _, hc⟩ := List.mem_map.mp hmem
  by_cases h : c = '_' <;> simp [h] at hc

/-! ### The claims -/

/-- Claim C7: every terminating run of the tree-notation renderer returns a
block in which every underscore of the assembled text (fields and fixed
markup alike) has been replaced by a hyphen, so the block contains no
underscore character. -/
theorem c7_theorem (s : List Token) (incl : Bool) (fuel : Nat) (out : String)
    (h : convert_to_latex s incl fuel = some out) : '_' ∉ out.data := by
  simp only [convert_to_latex] at h
  cases hr : latexRenderTokens s incl fuel (get_children_of s 0) with
  | none => rw [hr] at h; exact absurd h (by simp)
  | some body =>
    rw [hr] at h
    simp only [Option.some.injEq] at h
    rw [← h]
    exact pyReplaceUnderscore_no_underscore _

/-- A one-token sentence with underscores in several fields. -/
def c7Sentence : List Token := [Token.init 1 "a_b" "x" "N_P" "" 0 "obj_root"]

/-- Witness for C7: the rendered block of a sentence whose form, POS and
dependency label all contain underscores has no underscore. -/
theorem c7_witness :
    '_' ∉ (pyReplaceUnderscore
      (latexPre ++ "[.\x7bobj_root\\\\a_b (N_P)\x7d  ]" ++ latexPost)).data :=
  c7_theorem c7Sentence false 1 _ (by decide)

/-- Claim C10: two sentences that differ only in the lemma values of their
tokens render identically in both notations, for every `include_features`
setting (and every fuel): the lemma field is stored but never rendered. -/
theorem c10_theorem (s s2 : List Token) (h : List.Forall₂ sameExceptLemma s s2)
    (incl : Bool) (fuel : Nat) :
    convert_to_latex s incl fuel = convert_to_latex s2 incl fuel ∧
    convert_to_graphviz s incl fuel = convert_to_graphviz s2 incl fuel := by
  have hc := forall2_children h (0 : Int)
  have hlen : (get_children_of s 0).length = (get_children_of s2 0).length :=
    List.Forall₂.length_eq hc
  constructor
  · simp only [convert_to_latex]
    rw [latexRenderTokens_congr incl h fuel hc, hlen]
  · simp only [convert_to_graphviz]
    rw [graphvizRenderTokens_congr incl h fuel hc]

/-- Witness for C10 at a pair of one-token sentences differing only in the
lemma. -/
theorem c10_witness :
    convert_to_latex [Token.mk 1 "cat" "lemA" "N" "" 0 "r"] true 2
      = convert_to_latex [Token.mk 1 "cat" "lemB" "N" "" 0 "r"] true 2 ∧
    convert_to_graphviz [Token.mk 1 "cat" "lemA" "N" "" 0 "r"] true 2
      = convert_to_graphviz [Token.mk 1 "cat" "lemB" "N" "" 0 "r"] true 2 :=
  c10_theorem _ _
    (List.Forall₂.cons ⟨rfl, rfl, rfl, rfl, rfl, rfl⟩ List.Forall₂.nil) true 2

/-- Claim C3: the tree-notation renderer wraps the rendered roots in one
extra bracket level exactly when there are at least two roots, omits the
wrapper for a single root, and the graph-notation renderer emits the same
flat frame for any number of roots. -/
theorem c3_theorem (s : List Token) (incl : Bool) (fuel : Nat) :
    (∀ body, latexRenderTokens s incl fuel (get_children_of s 0) = some body →
      convert_to_latex s incl fuel = some (pyReplaceUnderscore
        (latexPre ++ (if 1 < (get_children_of s 0).length then "[ " else "")
          ++ body ++ (if 1 < (get_children_of s 0).length then "] " else "")
          ++ latexPost))
      ∧ ((get_children_of s 0).length = 1 →
        convert_to_latex s incl fuel
          = some (pyReplaceUnderscore (latexPre ++ body ++ latexPost))))
    ∧ (∀ body, graphvizRenderTokens s incl fuel (get_children_of s 0) = some body →
      convert_to_graphviz s incl fuel = some ("digraph tree \x7b\n" ++ body ++ "\x7d")) := by
  constructor
  · intro body h
    constructor
    · simp only [convert_to_latex]
      rw [h]
    · intro h1
      simp only [convert_to_latex]
      rw [h, h1]
      simp [String.append_empty]
  · intro body h
    simp only [convert_to_graphviz]
    rw [h]

/-- Witness for C3 at a sentence with two roots (latex wrapper present) and
for the flat graphviz frame. -/
theorem c3_witness :
    (convert_to_latex twoRootSentence false 1 = some (pyReplaceUnderscore
      (latexPre ++ (if 1 < (get_children_of twoRootSentence 0).length then "[ " else "")
        ++ "[.\x7br\\\\a (A)\x7d  ][.\x7br\\\\b (B)\x7d  ]"
        ++ (if 1 < (get_children_of twoRootSentence 0).length then "] " else "")
        ++ latexPost)))
    ∧ convert_to_graphviz twoRootSentence false 1
      = some ("digraph tree \x7b\n"
          ++ "n1 [label=\"a\\nA (r)\"];\nn2 [label=\"b\\nB (r)\"];\n" ++ "\x7d") :=
  ⟨((c3_theorem twoRootSentence false 1).1 _ (by decide)).1,
    (c3_theorem twoRootSentence false 1).2 _ (by decide)⟩

/-- Claim C5: `get_children_of` returns exactly the tokens with the given
head, as a sublist of the sentence (so in appearance order), and both
renderers emit a sibling's whole subtree before the next sibling's, in list
order. -/
theorem c5_theorem (s : List Token) (i : Int) :
    List.Sublist (get_children_of s i) s
    ∧ (∀ t, t ∈ get_children_of s i ↔ t ∈ s ∧ t.head = i)
    ∧ (∀ (incl : Bool) (fuel : Nat) (t : Token) (rest : List Token) (out : String),
        latexRenderTokens s incl fuel (t :: rest) = some out →
        ∃ x y, latexRenderTokens s incl fuel [t] = some x
          ∧ latexRenderTokens s incl fuel rest = some y ∧ out = x ++ y)
    ∧ (∀ (incl : Bool) (fuel : Nat) (t : Token) (rest : List Token) (out : String),
        graphvizRenderTokens s incl fuel (t :: rest) = some out →
        ∃ x y, graphvizRenderTokens s incl fuel [t] = some x
          ∧ graphvizRenderTokens s incl fuel rest = some y ∧ out = x ++ y) := by
  refine ⟨List.filter_sublist s, fun t => mem_get_children_of, ?_, ?_⟩
  · intro incl fuel t rest out h
    cases fuel with
    | zero => simp [latexRenderTokens] at h
    | succ fuel =>
      simp only [latexRenderTokens, latexSibs] at h ⊢
      cases hc : latexRenderTokens s incl fuel (get_children_of s t.index) with
      | none => rw [hc] at h; simp at h
      | some body =>
        rw [hc] at h
        cases hr : latexSibs s incl (latexRenderTokens s incl fuel) rest with
        | none => rw [hr] at h; simp at h
        | some tail =>
          rw [hr] at h
          simp only [Option.some.injEq] at h
          refine ⟨_, tail, rfl, rfl, ?_⟩
          rw [← h]
          simp [String.append_empty, String.append_assoc]
  · intro incl fuel t rest out h
    cases fuel with
    | zero => simp [graphvizRenderTokens] at h
    | succ fuel =>
      simp only [graphvizRenderTokens, graphvizSibs] at h ⊢
      cases hc : graphvizRenderTokens s incl fuel (get_children_of s t.index) with
      | none => rw [hc] at h; simp at h
      | some body =>
        rw [hc] at h
        cases hr : graphvizSibs s incl (graphvizRenderTokens s incl fuel) rest with
        | none => rw [hr] at h; simp at h
        | some tail =>
          rw [hr] at h
          simp only [Option.some.injEq] at h
          refine ⟨_, tail, rfl, rfl, ?_⟩
          rw [← h]
          simp [String.append_empty, String.append_assoc]

/-- Witness for C5: sibling decomposition of the two-root sentence. -/
theorem c5_witness :
    ∃ x y, latexRenderTokens twoRootSentence false 1 [Token.init 1 "a" "a" "A" "" 0 "r"] = some x
      ∧ latexRenderTokens twoRootSentence false 1 [Token.init 2 "b" "b" "B" "" 0 "r"] = some y
      ∧ "[.\x7br\\\\a (A)\x7d  ][.\x7br\\\\b (B)\x7d  ]" = x ++ y :=
  (c5_theorem twoRootSentence 0).2.2.1 false 1 _ _ _ (by decide)

/-- Claim C4: in graph notation, a token with children contributes exactly
one edge-declaration line, after its own node line and before any
descendant's lines, whose source is the parent's node name and whose
grouped target set lists all children's node names; the spec's two-token
example yields two node lines and the single edge line `n2 -> {n1};`. -/
theorem c4_theorem :
    (∀ (s : List Token) (incl : Bool) (fuel : Nat) (t : Token) (rest : List Token)
        (out : String),
      graphvizRenderTokens s incl (fuel + 1) (t :: rest) = some out →
      ∃ body tail,
        graphvizRenderTokens s incl fuel (get_children_of s t.index) = some body
        ∧ graphvizRenderTokens s incl (fuel + 1) rest = some tail
        ∧ out = gvNodeLine incl t
            ++ (if has_children s t.index then gvEdgeLine s t else "")
            ++ body ++ tail
        ∧ (has_children s t.index = true ↔ get_children_of s t.index ≠ []))
    ∧ convert_to_graphviz demoSentence false 2
        = some "digraph tree \x7b\nn2 [label=\"chat\\nNC (root)\"];\nn2 -> \x7bn1\x7d;\nn1 [label=\"Le\\nDET (det)\"];\n\x7d" := by
  constructor
  · intro s incl fuel t rest out h
    simp only [graphvizRenderTokens, graphvizSibs] at h ⊢
    cases hc : graphvizRenderTokens s incl fuel (get_children_of s t.index) with
    | none => rw [hc] at h; simp at h
    | some body =>
      rw [hc] at h
      cases hr : graphvizSibs s incl (graphvizRenderTokens s incl fuel) rest with
      | none => rw [hr] at h; simp at h
      | some tail =>
        rw [hr] at h
        simp only [Option.some.injEq] at h
        refine ⟨body, tail, rfl, rfl, ?_, has_children_iff⟩
        rw [← h]
        rfl
  · decide

/-- Witness for C4: the decomposition at the root of the spec's two-token
example. -/
theorem c4_witness :
    ∃ body tail,
      graphvizRenderTokens demoSentence false 1
          (get_children_of demoSentence (Token.init 2 "chat" "chat" "NC" "" 0 "root").index)
        = some body
      ∧ graphvizRenderTokens demoSentence false (1 + 1) [] = some tail
      ∧ "n2 [label=\"chat\\nNC (root)\"];\nn2 -> \x7bn1\x7d;\nn1 [label=\"Le\\nDET (det)\"];\n"
          = gvNodeLine false (Token.init 2 "chat" "chat" "NC" "" 0 "root")
            ++ (if has_children demoSentence (Token.init 2 "chat" "chat" "NC" "" 0 "root").index
                then gvEdgeLine demoSentence (Token.init 2 "chat" "chat" "NC" "" 0 "root") else "")
            ++ body ++ tail
      ∧ (has_children demoSentence (Token.init 2 "chat" "chat" "NC" "" 0 "root").index = true
          ↔ get_children_of demoSentence (Token.init 2 "chat" "chat" "NC" "" 0 "root").index ≠ []) :=
  c4_theorem.1 demoSentence false 1 _ [] _ (by decide)

/-- Claim C6: the feature string's `|` separators are replaced by `, ` once,
at token construction; each renderer's node text carries a feature segment
exactly when `include_features` is set and the token's feature string is
non-empty (and carries the empty segment otherwise). -/
theorem c6_theorem :
    (∀ (index : Int) (form lem pos feats : String) (head : Int) (dep : String),
      (Token.init index form lem pos feats head dep).feats = pyReplacePipe feats)
    ∧ pyReplacePipe "Gender=Masc|Number=Sing" = "Gender=Masc, Number=Sing"
    ∧ (∀ (s : List Token) (incl : Bool) (fuel : Nat) (t : Token) (rest : List Token)
        (out : String),
      latexRenderTokens s incl (fuel + 1) (t :: rest) = some out →
      ∃ featsStr body tail,
        out = "[.\x7b" ++ t.deplabel ++ "\\\\" ++ t.form ++ " (" ++ t.pos ++ ")"
            ++ featsStr ++ "\x7d " ++ body ++ " ]" ++ tail
        ∧ (incl = true ∧ t.feats ≠ "" → featsStr = "\\\\ \x7b\\tiny " ++ t.feats ++ "\x7d")
        ∧ (¬(incl = true ∧ t.feats ≠ "") → featsStr = ""))
    ∧ (∀ (s : List Token) (incl : Bool) (fuel : Nat) (t : Token) (rest : List Token)
        (out : String),
      graphvizRenderTokens s incl (fuel + 1) (t :: rest) = some out →
      ∃ featsStr body tail,
        out = "n" ++ toString t.index ++ " [label=\"" ++ pyReplaceQuot t.form ++ "\\n"
            ++ pyReplaceQuot t.pos ++ " (" ++ pyReplaceQuot t.deplabel ++ ")"
            ++ pyReplaceQuot featsStr ++ "\"];\n"
            ++ (if has_children s t.index then gvEdgeLine s t else "") ++ body ++ tail
        ∧ (incl = true ∧ t.feats ≠ "" → featsStr = "\\n" ++ t.feats)
        ∧ (¬(incl = true ∧ t.feats ≠ "") → featsStr = "")) := by
  refine ⟨fun _ _ _ _ _ _ _ => rfl, by decide, ?_, ?_⟩
  · intro s incl fuel t rest out h
    simp only [latexRenderTokens, latexSibs] at h
    cases hc : latexRenderTokens s incl fuel (get_children_of s t.index) with
    | none => rw [hc] at h; simp at h
    | some body =>
      rw [hc] at h
      cases hr : latexSibs s incl (latexRenderTokens s incl fuel) rest with
      | none => rw [hr] at h; simp at h
      | some tail =>
        rw [hr] at h
        simp only [Option.some.injEq] at h
        refine ⟨if incl ∧ t.feats ≠ "" then "\\\\ \x7b\\tiny " ++ t.feats ++ "\x7d" else "",
          body, tail, by rw [← h], ?_, ?_⟩
        · intro hcond
          rw [if_pos hcond]
        · intro hcond
          rw [if_neg hcond]
  · intro s incl fuel t rest out h
    simp only [graphvizRenderTokens, graphvizSibs] at h
    cases hc : graphvizRenderTokens s incl fuel (get_children_of s t.index) with
    | none => rw [hc] at h; simp at h
    | some body =>
      rw [hc] at h
      cases hr : graphvizSibs s incl (graphvizRenderTokens s incl fuel) rest with
      | none => rw [hr] at h; simp at h
      | some tail =>
        rw [hr] at h
        simp only [Option.some.injEq] at h
        refine ⟨if incl ∧ t.feats ≠ "" then "\\n" ++ t.feats else "",
          body, tail, by rw [← h]; rfl, ?_, ?_⟩
        · intro hcond
          rw [if_pos hcond]
        · intro hcond
          rw [if_neg hcond]

/-- Witness for C6: the feature string of `featToken` as constructed and as
rendered with `include_features` on. -/
theorem c6_witness :
    (Token.init 1 "cat" "c" "N" "Gender=Masc|Number=Sing" 0 "r").feats
        = pyReplacePipe "Gender=Masc|Number=Sing"
    ∧ ∃ featsStr body tail,
        "[.\x7br\\\\cat (N)\\\\ \x7b\\tiny Gender=Masc, Number=Sing\x7d\x7d  ]"
          = "[.\x7b" ++ featToken.deplabel ++ "\\\\" ++ featToken.form ++ " ("
              ++ featToken.pos ++ ")" ++ featsStr ++ "\x7d " ++ body ++ " ]" ++ tail
        ∧ (true = true ∧ featToken.feats ≠ "" →
            featsStr = "\\\\ \x7b\\tiny " ++ featToken.feats ++ "\x7d")
        ∧ (¬(true = true ∧ featToken.feats ≠ "") → featsStr = "") :=
  ⟨c6_theorem.1 1 "cat" "c" "N" "Gender=Masc|Number=Sing" 0 "r",
    c6_theorem.2.2.1 featSentence true 0 featToken [] _ (by decide)⟩

/-- Counterexample for C1: the parsed token's part of speech comes from the
4th (coarse-POS) column, not from the 5th (fine-POS) column. -/
theorem c1_counterexample :
    lineToken false c1Line
      = Except.ok (some (Token.mk 1 "cat" "chat" "N" "f, g" 0 "root"))
    ∧ (splitTab c1Line).get? 4 = some "NN"
    ∧ (Token.mk 1 "cat" "chat" "N" "f, g" 0 "root").pos ≠ "NN" :=
  ⟨by decide, by decide, by decide⟩

/-- Claim C1 (amended): the token's part of speech is taken from the
coarse-POS (4th tab-separated) column — the fine-POS (5th) column is
ignored — and it is that value both renderers embed in a token's node
text. -/
theorem c1_theorem :
    (∀ (ig : Bool) (line : String) (t : Token),
      lineToken ig line = Except.ok (some t) → (splitTab line).get? 3 = some t.pos)
    ∧ (∀ (s : List Token) (incl : Bool) (fuel : Nat) (t : Token) (rest : List Token)
        (out : String),
      latexRenderTokens s incl (fuel + 1) (t :: rest) = some out →
      ∃ a b, out = a ++ t.pos ++ b)
    ∧ (∀ (s : List Token) (incl : Bool) (fuel : Nat) (t : Token) (rest : List Token)
        (out : String),
      graphvizRenderTokens s incl (fuel + 1) (t :: rest) = some out →
      ∃ a b, out = a ++ pyReplaceQuot t.pos ++ b) := by
  refine ⟨?_, ?_, ?_⟩
  · intro ig line t h
    simp only [lineToken] at h
    split at h
    · simp at h
    · obtain ⟨c0, hc0, h⟩ := except_bind_ok h
      obtain ⟨index, hidx, h⟩ := except_bind_ok h
      obtain ⟨form, hform, h⟩ := except_bind_ok h
      obtain ⟨lem, hlem, h⟩ := except_bind_ok h
      obtain ⟨pos, hpos, h⟩ := except_bind_ok h
      obtain ⟨feats, hfeats, h⟩ := except_bind_ok h
      obtain ⟨c6, hc6, h⟩ := except_bind_ok h
      obtain ⟨head, hhead, h⟩ := except_bind_ok h
      obtain ⟨dep, hdep, h⟩ := except_bind_ok h
      simp only [Except.ok.injEq, Option.some.injEq] at h
      rw [← h]
      exact col_ok hpos
  · intro s incl fuel t rest out h
    simp only [latexRenderTokens, latexSibs] at h
    cases hc : latexRenderTokens s incl fuel (get_children_of s t.index) with
    | none => rw [hc] at h; simp at h
    | some body =>
      rw [hc] at h
      cases hr : latexSibs s incl (latexRenderTokens s incl fuel) rest with
      | none => rw [hr] at h; simp at h
      | some tail =>
        rw [hr] at h
        simp only [Option.some.injEq] at h
        refine ⟨"[.\x7b" ++ t.deplabel ++ "\\\\" ++ t.form ++ " (",
          ")" ++ (if incl ∧ t.feats ≠ "" then "\\\\ \x7b\\tiny " ++ t.feats ++ "\x7d" else "")
            ++ "\x7d " ++ body ++ " ]" ++ tail, ?_⟩
        rw [← h]
        simp only [String.append_assoc]
  · intro s incl fuel t rest out h
    simp only [graphvizRenderTokens, graphvizSibs] at h
    cases hc : graphvizRenderTokens s incl fuel (get_children_of s t.index) with
    | none => rw [hc] at h; simp at h
    | some body =>
      rw [hc] at h
      cases hr : graphvizSibs s incl (graphvizRenderTokens s incl fuel) rest with
      | none => rw [hr] at h; simp at h
      | some tail =>
        rw [hr] at h
        simp only [Option.some.injEq] at h
        refine ⟨"n" ++ toString t.index ++ " [label=\"" ++ pyReplaceQuot t.form ++ "\\n",
          " (" ++ pyReplaceQuot t.deplabel ++ ")"
            ++ pyReplaceQuot (if incl ∧ t.feats ≠ "" then "\\n" ++ t.feats else "")
            ++ "\"];\n"
            ++ (if has_children s t.index then
                "n" ++ toString t.index ++ " -> \x7b"
                  ++ String.intercalate " "
                    ((get_children_of s t.index).map (fun c => "n" ++ toString c.index))
                  ++ "\x7d;\n"
              else "")
            ++ body ++ tail, ?_⟩
        rw [← h]
        simp only [String.append_assoc]

/-- Witness for C1: the 4th column of the sample record is the parsed
token's POS, and the rendered node text embeds it. -/
theorem c1_witness :
    (splitTab c1Line).get? 3 = some (Token.mk 1 "cat" "chat" "N" "f, g" 0 "root").pos
    ∧ ∃ a b, "[.\x7broot\\\\cat (N)\\\\ \x7b\\tiny f, g\x7d\x7d  ]"
        = a ++ (Token.mk 1 "cat" "chat" "N" "f, g" 0 "root").pos ++ b :=
  ⟨c1_theorem.1 false c1Line _ (by decide),
    c1_theorem.2.1 [Token.mk 1 "cat" "chat" "N" "f, g" 0 "root"] true 0 _ [] _ (by decide)⟩

theorem gvUnits_names (incl : Bool) (fuel : Nat) (output_file : String)
    (hout : ¬ output_file = "") :
    ∀ (sents : List (List Token)) (count : Nat) (units : List OutUnit),
      gvUnits incl fuel output_file sents count = some units →
      units.length = sents.length ∧
      ∀ i, i < sents.length →
        ∃ code, units.get? i = some (OutUnit.toFile
          ((os_path_splitext output_file).1 ++ "-" ++ pyFormat03 (count + i)
            ++ (os_path_splitext output_file).2) code) := by
  intro sents
  induction sents with
  | nil =>
    intro count units h
    simp only [gvUnits, Option.some.injEq] at h
    subst h
    exact ⟨rfl, fun i hi => absurd hi (by simp)⟩
  | cons s rest ih =>
    intro count units h
    cases hc : convert_to_graphviz s incl fuel with
    | none => simp [gvUnits, hc] at h
    | some code =>
      simp only [gvUnits, hc, if_neg hout] at h
      cases hr : gvUnits incl fuel output_file rest (count + 1) with
      | none => rw [hr] at h; simp at h
      | some us =>
        rw [hr] at h
        simp only [Option.some.injEq] at h
        subst h
        obtain ⟨hlen, hget⟩ := ih (count + 1) us hr
        refine ⟨by simp [hlen], ?_⟩
        intro i hi
        cases i with
        | zero => exact ⟨code, by simp⟩
        | succ i =>
          have hi2 : i < rest.length := by simpa using hi
          obtain ⟨code2, hcode⟩ := hget i hi2
          refine ⟨code2, ?_⟩
          rw [show count + (i + 1) = count + 1 + i by omega]
          simpa using hcode

/-- Claim C8: with an output path configured, the per-sentence graph
outputs go to `base-NNN.ext` where the configured path splits into
`base`/`.ext` at its extension and `NNN` is the 1-based, three-digit
zero-padded sequence number, in input order; three sentences get the
suffixes `-001`, `-002`, `-003`. -/
theorem c8_theorem :
    (∀ (output_file : String), output_file ≠ "" →
      ∀ (incl : Bool) (fuel : Nat) (sents : List (List Token)) (units : List OutUnit),
      gvUnits incl fuel output_file sents 1 = some units →
      units.length = sents.length ∧
      ∀ i, i < sents.length →
        ∃ code, units.get? i = some (OutUnit.toFile
          ((os_path_splitext output_file).1 ++ "-" ++ pyFormat03 (1 + i)
            ++ (os_path_splitext output_file).2) code))
    ∧ gvUnits false 1 "out.gv" c8Sentences 1
      = some [OutUnit.toFile "out-001.gv" "digraph tree \x7b\nn1 [label=\"a\\nA (r)\"];\n\x7d",
          OutUnit.toFile "out-002.gv" "digraph tree \x7b\nn1 [label=\"b\\nA (r)\"];\n\x7d",
          OutUnit.toFile "out-003.gv" "digraph tree \x7b\nn1 [label=\"c\\nA (r)\"];\n\x7d"] :=
  ⟨fun o ho incl fuel sents units h => gvUnits_names incl fuel o ho sents 1 units h,
    by decide⟩

/-- Witness for C8: the general naming statement applied to the three
concrete sentences. -/
theorem c8_witness :
    ([OutUnit.toFile "out-001.gv" "digraph tree \x7b\nn1 [label=\"a\\nA (r)\"];\n\x7d",
        OutUnit.toFile "out-002.gv" "digraph tree \x7b\nn1 [label=\"b\\nA (r)\"];\n\x7d",
        OutUnit.toFile "out-003.gv" "digraph tree \x7b\nn1 [label=\"c\\nA (r)\"];\n\x7d"].length
      = c8Sentences.length)
    ∧ ∀ i, i < c8Sentences.length →
      ∃ code,
        [OutUnit.toFile "out-001.gv" "digraph tree \x7b\nn1 [label=\"a\\nA (r)\"];\n\x7d",
          OutUnit.toFile "out-002.gv" "digraph tree \x7b\nn1 [label=\"b\\nA (r)\"];\n\x7d",
          OutUnit.toFile "out-003.gv" "digraph tree \x7b\nn1 [label=\"c\\nA (r)\"];\n\x7d"].get? i
          = some (OutUnit.toFile
            ((os_path_splitext "out.gv").1 ++ "-" ++ pyFormat03 (1 + i)
              ++ (os_path_splitext "out.gv").2) code) :=
  c8_theorem.1 "out.gv" (by decide) false 1 c8Sentences _ (by decide)

/-- Claim C9: requesting compilation without an output path is a fatal
configuration error raised by the argument handling, for every input and
fuel — so before any input line is read or parsed. -/
theorem c9_theorem (a : Args) (input : List String) (fuel : Nat)
    (hc : a.compile = true) (ho : a.output_file = "") :
    mainFlow a input fuel
      = Except.error "you need to specify an output file when using the -c switch" := by
  simp only [mainFlow, parse_args]
  rw [if_pos ⟨hc, ho⟩]

/-- Witness for C9 at concrete options and a concrete input. -/
theorem c9_witness :
    c9Args.compile = true ∧ c9Args.output_file = ""
    ∧ mainFlow c9Args ["1\tle\tle\tD\tD\t\t0\tr\t_\t_"] 5
      = Except.error "you need to specify an output file when using the -c switch" :=
  ⟨rfl, rfl, c9_theorem c9Args ["1\tle\tle\tD\tD\t\t0\tr\t_\t_"] 5 rfl rfl⟩

/-- Counterexample for C2: on a sentence with unique positive indices
satisfying the head invariant whose head pointers form a cycle, both
renderers nevertheless terminate (the cycle is unreachable from the roots),
so termination is not equivalent to acyclicity. -/
theorem c2_counterexample :
    ¬ (uniqIndices cycSentence ∧ posIndices cycSentence ∧ headInv cycSentence →
        (((∃ fuel out, convert_to_latex cycSentence true fuel = some out)
          ∧ (∃ fuel out, convert_to_graphviz cycSentence true fuel = some out))
          ↔ Acyclic cycSentence)) := by
  intro h
  have hiff := h ⟨by decide, by decide, by decide⟩
  have hterm : ((∃ fuel out, convert_to_latex cycSentence true fuel = some out)
      ∧ (∃ fuel out, convert_to_graphviz cycSentence true fuel = some out)) :=
    ⟨⟨0, _, rfl⟩, ⟨0, _, rfl⟩⟩
  have hacyc := hiff.mp hterm
  have s12 : headStep cycSentence cycToken1 cycToken2 := ⟨by decide, by decide, by decide⟩
  have s21 : headStep cycSentence cycToken2 cycToken1 := ⟨by decide, by decide, by decide⟩
  exact hacyc cycToken1 (Relation.TransGen.tail (Relation.TransGen.single s12) s21)

/-- Claim C2 (amended): for every sentence with unique positive token
indices satisfying the head invariant, both renderers terminate — with
recursion depth at most the number of tokens — whether or not the
head-pointer relation is acyclic (tokens on a cycle are unreachable from
the roots and are silently omitted). -/
theorem c2_theorem (s : List Token) (hu : uniqIndices s) (hp : posIndices s)
    (_hh : headInv s) (incl : Bool) :
    (convert_to_latex s incl (s.length + 1)).isSome = true
    ∧ (convert_to_graphviz s incl (s.length + 1)).isSome = true := by
  have hok : traverseOK s (s.length + 1) (get_children_of s 0) = true := by
    refine traverseOK_of_anc hu hp (s.length + 1) [] (get_children_of s 0)
      Anc.nil List.nodup_nil (by simp) ?_
    intro c hc
    have := mem_get_children_of.mp hc
    exact ⟨this.1, by simp [chainHead, this.2]⟩
  constructor
  · simp only [convert_to_latex]
    cases hr : latexRenderTokens s incl (s.length + 1) (get_children_of s 0) with
    | none =>
      have hiso := latexRenderTokens_isSome s incl (s.length + 1) (get_children_of s 0)
      rw [hr, hok] at hiso
      simp at hiso
    | some body => simp
  · simp only [convert_to_graphviz]
    cases hr : graphvizRenderTokens s incl (s.length + 1) (get_children_of s 0) with
    | none =>
      have hiso := graphvizRenderTokens_isSome s incl (s.length + 1) (get_children_of s 0)
      rw [hr, hok] at hiso
      simp at hiso
    | some body => simp

/-- Witness for C2: the amended termination statement applied to the cyclic
sentence itself. -/
theorem c2_witness :
    uniqIndices cycSentence ∧ posIndices cycSentence ∧ headInv cycSentence
    ∧ ((convert_to_latex cycSentence true (cycSentence.length + 1)).isSome = true
      ∧ (convert_to_graphviz cycSentence true (cycSentence.length + 1)).isSome = true) :=
  ⟨by decide, by decide, by decide,
    c2_theorem cycSentence (by decide) (by decide) (by decide) true⟩

